import Mathlib

/-!
Verification of the rule-resolution and cyclic file-selection engine of the
vim-rule-switcher plugin (denops/switcher/*.ts).

The TypeScript sources are shallowly embedded below.  JavaScript strings are
modelled as Lean `String`; the JavaScript operations used by the code
(`String.prototype.includes`, `startsWith`, `endsWith`, the first-occurrence
semantics of `String.prototype.replace`, `Array.prototype.findIndex` with its
`-1` sentinel, `split("\n")`) are reproduced exactly by the `js*` helpers.
Effectful collaborators (the editor, the file system, `git ls-files`,
`Deno.realPathSync`, the JSON parser) are passed in as explicit parameters,
and control flow that can throw or call `Deno.exit` is modelled with the
`JsOutcome` type.

The repository keeps near-duplicate historical variants of the engine side by
side; where the variants differ they are embedded separately, namespaced by
their file: `Util` (util.ts), `Common` (common.ts), `Switcher` (switcher.ts)
and `MainV2` (the dispatcher variant of main.ts that wires common.ts).
-/

/-- JavaScript array/string containment on char lists: `infixOfList pat s` is
true iff `pat` occurs contiguously inside `s` (the semantics of
`String.prototype.includes`, checked position by position). -/
def infixOfList (pat : List Char) : List Char → Bool
  | [] => pat.isEmpty
  | c :: t => pat.isPrefixOf (c :: t) || infixOfList pat t

/-- `jsIncludes s sub` models the JavaScript expression `s.includes(sub)`. -/
def jsIncludes (s sub : String) : Bool := infixOfList sub.toList s.toList

/-- `jsStartsWith s pat` models the JavaScript expression `s.startsWith(pat)`. -/
def jsStartsWith (s pat : String) : Bool := pat.toList.isPrefixOf s.toList

/-- `jsEndsWith s pat` models the JavaScript expression `s.endsWith(pat)`. -/
def jsEndsWith (s pat : String) : Bool := pat.toList.isSuffixOf s.toList

/-- First-occurrence replacement on char lists: the occurrence of `pat`
starting at the smallest position is replaced by `repl`; when `pat` does not
occur the list is unchanged.  This is the semantics of the JavaScript call
`s.replace(pat, repl)` with a string pattern. -/
def replaceFirstList (pat repl : List Char) : List Char → List Char
  | [] => if pat.isPrefixOf ([] : List Char) then repl else []
  | c :: t =>
    if pat.isPrefixOf (c :: t) then repl ++ (c :: t).drop pat.length
    else c :: replaceFirstList pat repl t

/-- `jsReplaceFirst s pat repl` models the JavaScript expression
`s.replace(pat, repl)` (string pattern: only the first occurrence is
replaced). -/
def jsReplaceFirst (s pat repl : String) : String :=
  String.mk (replaceFirstList pat.toList repl.toList s.toList)

/-- JavaScript truthiness of a string: `""` is falsy, all other strings are
truthy. -/
def strTruthy (s : String) : Bool := !s.isEmpty

/-- JavaScript falsiness of a `string | undefined` value: `undefined` and
`""` are falsy. -/
def jsFalsyStr : Option String → Bool
  | none => true
  | some s => s.isEmpty

/-- Accumulator for `splitLines`; mirrors `String.prototype.split("\n")`. -/
def splitLinesAux (acc : List Char) : List Char → List String
  | [] => [String.mk acc.reverse]
  | c :: t =>
    if c == Char.ofNat 10 then String.mk acc.reverse :: splitLinesAux [] t
    else splitLinesAux (c :: acc) t

/-- `splitLines s` models the JavaScript expression `s.split("\n")`. -/
def splitLines (s : String) : List String := splitLinesAux [] s.toList

/-- `Array.prototype.findIndex`: the (0-based) index of the first element
satisfying the predicate, or `-1` when there is none. -/
def jsFindIndex {α : Type} (p : α → Bool) (l : List α) : Int :=
  match l.findIdx? p with
  | none => -1
  | some i => (i : Int)

/-- JavaScript array indexing `l[i]` for a possibly signed index: any access
outside the array yields `undefined`, modelled as `none`. -/
def jsArrayGet {α : Type} (l : List α) (i : Int) : Option α :=
  if i < 0 then none else l[i.toNat]?

/-- Result of running a piece of JavaScript: a returned value, a thrown
exception (carrying its message), or process termination through
`Deno.exit` (carrying the exit code). -/
inductive JsOutcome (α : Type) where
  | ok (value : α)
  | thrown (message : String)
  | exited (code : Nat)
deriving DecidableEq

/-- A rule entry of the persisted configuration (`type.ts`, `SwitchRule`):
`rule` is the kind tag (`"file"` or `"git"`), `path` the ordered template
list.  The JSON may additionally carry the affix fields; `post` models the
optional `postfix` property and `pre` the optional `prefix` property
(`none` = the property is absent). -/
structure Rule where
  rule : String
  path : List String
  post : Option String
  pre : Option String
deriving DecidableEq

/-- A project of the persisted configuration: a name owning an ordered rule
sequence. -/
structure ProjectCfg where
  name : String
  rules : List Rule
deriving DecidableEq

/-- The persisted configuration (`type.ts`, `SwitchRule`): an ordered project
sequence. -/
structure SwitchRule where
  projects : List ProjectCfg
deriving DecidableEq

/-- A resolved condition (`common.ts`, `Project`): the flattened view of one
rule with its project name attached and its templates resolved.  `post`
models the optional `postfix` property and `pre` the optional `prefix`
property; `name` is `none` when the JavaScript object has no `name` key. -/
structure Project where
  name : Option String
  path : List String
  rule : String
  post : Option String
  pre : Option String
deriving DecidableEq

/-- Strip the configured postfix (common.ts `getCommonPart`, first guarded
block): when the `postfix` property is present, truthy, and the name ends
with it, the first occurrence of the postfix is replaced by `""`. -/
def stripPostJS (s : String) (o : Option String) : String :=
  match o with
  | none => s
  | some pf => if strTruthy pf && jsEndsWith s pf then jsReplaceFirst s pf "" else s

/-- Strip the configured prefix (common.ts `getCommonPart`, second guarded
block): when the `prefix` property is present, truthy, and the name starts
with it, the first occurrence of the prefix is replaced by `""`. -/
def stripPreJS (s : String) (o : Option String) : String :=
  match o with
  | none => s
  | some pr => if strTruthy pr && jsStartsWith s pr then jsReplaceFirst s pr "" else s

/-- common.ts lines 106-115, `getCommonPart(fileName, project)`: strip the
postfix (guarded by `endsWith`), then the prefix (guarded by `startsWith` on
the intermediate result). -/
def Common.getCommonPart (fileName : String) (project : Project) : String :=
  stripPreJS (stripPostJS fileName project.post) project.pre

/-- util.ts lines 50-66, `getCommonPart(fileName, project)`: the same
computation is performed twice, once into `updatedFileName` (whose value is
then discarded) and once into `baseName` starting again from the original
`fileName`; `baseName` is returned. -/
def Util.getCommonPart (fileName : String) (project : Project) : String :=
  let updatedFileName := stripPreJS (stripPostJS fileName project.post) project.pre
  let baseName := stripPreJS (stripPostJS fileName project.post) project.pre
  let _ := updatedFileName
  baseName

/-- switcher.ts lines 130-139, `getNextFilePath(currentPath, paths)`:
locate the first entry related to `currentPath` by bidirectional substring
containment; when `findIndex` yields `-1` return `undefined`, otherwise the
entry at the next index modulo the length. -/
def Switcher.getNextFilePath (currentPath : String) (paths : List String) : Option String :=
  match paths.findIdx? (fun path => jsIncludes currentPath path || jsIncludes path currentPath) with
  | none => none
  | some i => paths[(i + 1) % paths.length]?

/-- common.ts lines 201-205, the `getNextFilePath` helper inside
`switchByFileRule`: `findIndex` with the same bidirectional containment
predicate, then `nextIndex = currentIndex === paths.length - 1 ? 0 :
currentIndex + 1` (so the `-1` sentinel falls through to index `0`), then
the array access `paths[nextIndex]`. -/
def Common.getNextFilePath (currentPath : String) (paths : List String) : Option String :=
  let currentIndex : Int :=
    jsFindIndex (fun path => jsIncludes currentPath path || jsIncludes path currentPath) paths
  let nextIndex : Int := if currentIndex = (paths.length : Int) - 1 then 0 else currentIndex + 1
  jsArrayGet paths nextIndex

/-- common.ts lines 50-54 / util.ts lines 15-22, `openFile(denops,
filePath)`: a falsy argument (absent or empty path) returns `false` without
opening anything; otherwise the editor opens the path and `true` is
returned.  The result records the returned boolean and the opened path. -/
def openFile (filePath : Option String) : Bool × Option String :=
  if jsFalsyStr filePath then (false, none) else (true, filePath)

/-- switcher.ts lines 152-162, the `file` handler of `switchByFileRule`:
compute the next path with the strict selector, throw the generic
`SwitcherError` when it is falsy, otherwise open it. -/
def Switcher.switchFileOutcome (currentPath : String) (paths : List String) : JsOutcome Bool :=
  let filePathToOpen := Switcher.getNextFilePath currentPath paths
  if jsFalsyStr filePathToOpen then JsOutcome.thrown "No next file path found"
  else JsOutcome.ok (openFile filePathToOpen).1

/-- common.ts lines 207-212, the `file` case of `switchByFileRule`: the
fallback selector feeds `openFile` directly, so an undefined next path just
returns `false`. -/
def Common.switchFileOutcome (currentPath : String) (paths : List String) : JsOutcome Bool :=
  JsOutcome.ok (openFile (Common.getNextFilePath currentPath paths)).1

/-- switcher.ts lines 62-79, `findProject(replacedProjects, currentFile,
rule, name)`: for `rule === "file"` a single `find` pass whose predicate is
the disjunction of the name/kind test `c.rule === rule && c.name === name`
and the containment test `c.path.some((path) => path.includes(currentFile))`;
for `rule === "git"` the first project of that kind; otherwise `undefined`. -/
def Switcher.findProject (replacedProjects : List Project) (currentFile : String)
    (rule : String) (name : Option String) : Option Project :=
  if rule == "file" then
    replacedProjects.find? (fun c =>
      (c.rule == rule && c.name == name) || c.path.any (fun path => jsIncludes path currentFile))
  else if rule == "git" then
    replacedProjects.find? (fun c => c.rule == rule)
  else none

/-- common.ts lines 126-148, `findProject`: for `rule === "file"` two
separate `find` passes joined with `||` — first the name/kind test over the
whole list, and only when that finds nothing the containment test
`c.path.some((path) => path.includes(currentFile))`; for `rule === "git"`
the first project of that kind. -/
def Common.findProject (replacedProjects : List Project) (currentFile : String)
    (rule : String) (name : Option String) : Option Project :=
  if rule == "file" then
    Option.or
      (replacedProjects.find? (fun c => c.rule == rule && c.name == name))
      (replacedProjects.find? (fun c => c.path.any (fun path => jsIncludes path currentFile)))
  else if rule == "git" then
    replacedProjects.find? (fun c => c.rule == rule)
  else none

/-- The `realPath` closure of `getSwitcherRule` (common.ts lines 236-242,
switcher.ts lines 198-207): when the template contains `%`, its first
occurrence is replaced by the common part of the file stem computed against
the rule (spread together with the project name); then the first occurrence
of `~` is replaced by the home directory. -/
def realPathResolve (fileName homeDirectory projectName : String) (r : Rule)
    (path : String) : String :=
  let updatedPath := path
  let updatedPath :=
    if jsIncludes updatedPath "%" then
      jsReplaceFirst updatedPath "%"
        (Common.getCommonPart fileName ⟨some projectName, r.path, r.rule, r.post, r.pre⟩)
    else updatedPath
  jsReplaceFirst updatedPath "~" homeDirectory

/-- The `replacedConditions` computation of `getSwitcherRule` (common.ts
lines 233-250): every project/rule pair is flattened into a resolved
condition `{ name, path: rule.path.map(realPath), rule: rule.rule }` (the
object literal carries no affix properties). -/
def Common.resolveProjects (cfg : SwitchRule) (fileName homeDirectory : String) : List Project :=
  cfg.projects.flatMap (fun project =>
    project.rules.map (fun r =>
      { name := some project.name,
        path := r.path.map (realPathResolve fileName homeDirectory project.name r),
        rule := r.rule, post := none, pre := none }))

/-- The pure core of `getSwitcherRule` (common.ts lines 225-256): resolve
every rule against the current file context, then match. -/
def Common.getSwitcherRuleCore (cfg : SwitchRule) (fileName homeDirectory currentFileName : String)
    (rule : String) (name : Option String) : Option Project :=
  Common.findProject (Common.resolveProjects cfg fileName homeDirectory) currentFileName rule name

/-- The guarded push of `addRule` (switcher.ts lines 267-270, common.ts
lines 280-283): `filePath` is appended to the first rule's path unless the
array already `includes` it. -/
def pushIfAbsent (r : Rule) (filePath : String) : Rule :=
  { rule := r.rule,
    path := if r.path.contains filePath then r.path else r.path ++ [filePath],
    post := r.post, pre := r.pre }

/-- The in-place mutation of `addRule` on an existing project: walk the
project sequence and, at the first project whose name matches, update the
first rule via `pushIfAbsent`; accessing `rules[0].path` of a project whose
rule list is empty throws a `TypeError`.  `none` means no project matched. -/
def updateFirstNamed (projectName filePath : String) :
    List ProjectCfg → Option (JsOutcome (List ProjectCfg))
  | [] => none
  | p :: ps =>
    if p.name == projectName then
      some (match p.rules with
        | [] => JsOutcome.thrown "TypeError: cannot read path of undefined"
        | r0 :: rest => JsOutcome.ok ({ name := p.name, rules := pushIfAbsent r0 filePath :: rest } :: ps))
    else
      match updateFirstNamed projectName filePath ps with
      | none => none
      | some (JsOutcome.ok ps2) => some (JsOutcome.ok (p :: ps2))
      | some o => some o

/-- switcher.ts lines 240-282 (identical logic in common.ts lines 265-292),
`addRule(denops, projectName)`: the configuration that `addRule` computes
and writes back, or the exception it throws before writing.  When a project
named `projectName` exists, its first rule receives `filePath` (via
`pushIfAbsent`, mutating the found object in place); when none exists a
fresh project `{ name: projectName, rules: [{ rule: "file", path: [] }] }`
receives the push and is `unshift`ed to the front. -/
def Switcher.addRuleCompute (stored : SwitchRule) (projectName filePath : String) :
    JsOutcome SwitchRule :=
  match updateFirstNamed projectName filePath stored.projects with
  | some (JsOutcome.ok ps) => JsOutcome.ok ⟨ps⟩
  | some (JsOutcome.thrown m) => JsOutcome.thrown m
  | some (JsOutcome.exited n) => JsOutcome.exited n
  | none =>
    let condition : ProjectCfg :=
      { name := projectName, rules := [{ rule := "file", path := [], post := none, pre := none }] }
    let condition : ProjectCfg :=
      { name := condition.name,
        rules := match condition.rules with
          | [] => []
          | r0 :: rest => pushIfAbsent r0 filePath :: rest }
    JsOutcome.ok ⟨condition :: stored.projects⟩

/-- Content of the configuration store after `addRule` ran:
`Deno.writeTextFile` is the last statement, so a throw leaves the stored
configuration untouched. -/
def Switcher.addRuleFinalStore (stored : SwitchRule) (projectName filePath : String) : SwitchRule :=
  match Switcher.addRuleCompute stored projectName filePath with
  | JsOutcome.ok cfg => cfg
  | _ => stored

/-- The external collaborators of one navigation request, captured at its
suspension points.  `switchRuleVar` is the awaited value of
`g:switch_rule` (`none`: not a string, `ensure` throws); `fileContent` the
result of `fn.readfile` on it (`none`: the read throws); `parsed` the
combined result of `JSON.parse` plus schema validation (`none`: one of them
throws); the remaining fields are the editor context, the `git ls-files`
output and the behaviour of `Deno.realPathSync`. -/
structure Env where
  switchRuleVar : Option String
  fileContent : Option (List String)
  parsed : Option SwitchRule
  fileName : String
  homeDirectory : String
  currentFileName : String
  currentFileRealPath : String
  gitLsOutput : String
  realPathOf : String → String

/-- common.ts lines 157-192, `getSwitchers(denops)`: the opening guard
tests `!v.g.get(denops, "switch_rule")` on an un-awaited Promise object,
which is always truthy in JavaScript, so that branch is dead and omitted;
then `ensure(await v.g.get(...), is.String)`, then `fn.readfile`, then —
when the file content is empty — `console.log` followed by `Deno.exit(1)`,
and finally `JSON.parse` plus schema validation. -/
def Common.getSwitchersRun (e : Env) : JsOutcome SwitchRule :=
  match e.switchRuleVar with
  | none => JsOutcome.thrown "ensure failed: g:switch_rule is not a string"
  | some _ =>
    match e.fileContent with
    | none => JsOutcome.thrown "readfile failed"
    | some content =>
      if content.length == 0 then JsOutcome.exited 1
      else
        match e.parsed with
        | none => JsOutcome.thrown "JSON.parse or schema validation failed"
        | some settings => JsOutcome.ok settings

/-- switcher.ts lines 88-121, `getSwitchers(denops)`: same structure as the
common.ts variant, but the empty-content case throws
`SwitcherError("No switch rule found")` instead of calling `Deno.exit`. -/
def Switcher.getSwitchersRun (e : Env) : JsOutcome SwitchRule :=
  match e.switchRuleVar with
  | none => JsOutcome.thrown "ensure failed: g:switch_rule is not a string"
  | some _ =>
    match e.fileContent with
    | none => JsOutcome.thrown "readfile failed"
    | some content =>
      if content.length == 0 then JsOutcome.thrown "No switch rule found"
      else
        match e.parsed with
        | none => JsOutcome.thrown "JSON.parse or schema validation failed"
        | some settings => JsOutcome.ok settings

/-- common.ts lines 225-256, `getSwitcherRule(denops, rule, name)` run
against an environment: load the switchers (propagating a throw or an
exit), resolve, match, and return `condition ?? undefined`. -/
def Common.getSwitcherRuleRun (e : Env) (rule : String) (name : Option String) :
    JsOutcome (Option Project) :=
  match Common.getSwitchersRun e with
  | JsOutcome.thrown m => JsOutcome.thrown m
  | JsOutcome.exited n => JsOutcome.exited n
  | JsOutcome.ok switchers =>
    JsOutcome.ok (Common.getSwitcherRuleCore switchers e.fileName e.homeDirectory
      e.currentFileName rule name)

/-- common.ts lines 62-75, `handleGitFile(denops, filePathToOpen)`: a falsy
argument returns `false`; otherwise the first `git ls-files` line containing
it is resolved through `Deno.realPathSync` and opened; when no line matches,
a message is logged and `false` is returned. -/
def Common.handleGitFileRun (e : Env) (filePathToOpen : Option String) : JsOutcome Bool :=
  if jsFalsyStr filePathToOpen then JsOutcome.ok false
  else
    match (splitLines e.gitLsOutput).find? (fun file => jsIncludes file (filePathToOpen.getD "")) with
    | none => JsOutcome.ok false
    | some targetFile => JsOutcome.ok (openFile (some (e.realPathOf targetFile))).1

/-- common.ts lines 200-223, `switchByFileRule(denops, project)`: the
`file` case opens the next path (fallback selector), the `git` case feeds
the next template name to `handleGitFile`, any other kind returns `false`. -/
def Common.switchByFileRuleRun (e : Env) (project : Project) : JsOutcome Bool :=
  if project.rule == "file" then
    JsOutcome.ok (openFile (Common.getNextFilePath e.currentFileRealPath project.path)).1
  else if project.rule == "git" then
    Common.handleGitFileRun e (Common.getNextFilePath e.currentFileName project.path)
  else JsOutcome.ok false

/-- main.ts lines 147-167, the `switchByRule` dispatcher entry: inside
`try`, normalise the arguments (`rule ?? "file"`, `project ?? ""`), fetch
the switcher rule, return `false` when it is `undefined`, otherwise run
`switchByFileRule` — discarding its boolean — and return `true`; `catch`
logs the error and returns `false`.  A `Deno.exit` is not an exception and
passes through the `catch`. -/
def MainV2.switchByRuleRun (e : Env) (rule project : Option String) : JsOutcome Bool :=
  let ruleName := rule.getD "file"
  let projectName := project.getD ""
  match Common.getSwitcherRuleRun e ruleName (some projectName) with
  | JsOutcome.exited n => JsOutcome.exited n
  | JsOutcome.thrown _ => JsOutcome.ok false
  | JsOutcome.ok none => JsOutcome.ok false
  | JsOutcome.ok (some switcher) =>
    match Common.switchByFileRuleRun e switcher with
    | JsOutcome.exited n => JsOutcome.exited n
    | JsOutcome.thrown _ => JsOutcome.ok false
    | JsOutcome.ok _ => JsOutcome.ok true

/-- switcher.ts lines 32-51, `handleGitFile(denops, filePathToOpen)`: a
falsy argument throws; the first `git ls-files` line containing the name is
resolved through `Deno.realPathSync` and opened; when no line matches,
`SwitcherError("No matching file found in git repository")` is thrown.  The
value records `openFile`'s boolean and the path that was opened. -/
def Switcher.handleGitFile (filePathToOpen : Option String) (gitLsOutput : String)
    (realPathOf : String → String) : JsOutcome (Bool × Option String) :=
  if jsFalsyStr filePathToOpen then JsOutcome.thrown "File path is undefined"
  else
    match (splitLines gitLsOutput).find? (fun file => jsIncludes file (filePathToOpen.getD "")) with
    | none => JsOutcome.thrown "No matching file found in git repository"
    | some targetFile => JsOutcome.ok (openFile (some (realPathOf targetFile)))

/-- Iterated application of the switcher.ts cyclic selector, feeding each
result back as the next current identity; `none` as soon as one step yields
no next path. -/
def Switcher.nextChain (paths : List String) : Nat → String → Option String
  | 0, s => some s
  | n + 1, s =>
    match Switcher.getNextFilePath s paths with
    | none => none
    | some t => Switcher.nextChain paths n t

/-- Affix stripping as worded by the specification: the postfix is removed
from the END of the stem when the stem ends with it, then the prefix from
the start.  Written from the spec claim only (not from the source), for
comparison with the source-derived `Util.getCommonPart`. -/
def claimCommonPart (fileName : String) (project : Project) : String :=
  let afterPost :=
    match project.post with
    | none => fileName
    | some pf =>
      if strTruthy pf && jsEndsWith fileName pf then
        String.mk (fileName.toList.take (fileName.toList.length - pf.toList.length))
      else fileName
  match project.pre with
  | none => afterPost
  | some pr =>
    if strTruthy pr && jsStartsWith afterPost pr then
      String.mk (afterPost.toList.drop pr.toList.length)
    else afterPost

/-- An environment whose configuration store holds an empty file: the
`switch_rule` variable is set and readable, `readfile` yields zero lines. -/
def envEmptyCfg : Env :=
  { switchRuleVar := some "/rules.json", fileContent := some [], parsed := none,
    fileName := "main", homeDirectory := "/home/u", currentFileName := "main.ts",
    currentFileRealPath := "/w/main.ts", gitLsOutput := "", realPathOf := fun s => s }

/-- An environment where `g:switch_rule` is not a string, so `ensure`
throws while loading the switchers. -/
def envMissingVar : Env :=
  { switchRuleVar := none, fileContent := none, parsed := none,
    fileName := "main", homeDirectory := "/home/u", currentFileName := "main.ts",
    currentFileRealPath := "/w/main.ts", gitLsOutput := "", realPathOf := fun s => s }

theorem isPrefixOf_self_eq_true (l : List Char) : l.isPrefixOf l = true := by
  simp [List.isPrefixOf_iff_prefix]

theorem infixOfList_self (l : List Char) : infixOfList l l = true := by
  cases l with
  | nil => rfl
  | cons c t => simp [infixOfList, isPrefixOf_self_eq_true]

theorem jsIncludes_self (s : String) : jsIncludes s s = true :=
  infixOfList_self s.toList

theorem infixOfList_iff_occurs (pat : List Char) :
    ∀ s : List Char, infixOfList pat s = true ↔ pat <:+: s := by
  intro s
  induction s with
  | nil =>
    rw [show infixOfList pat [] = pat.isEmpty from rfl]
    simp [List.isEmpty_iff]
  | cons c t ih =>
    simp [infixOfList, ih, List.isPrefixOf_iff_prefix, List.infix_cons_iff]

theorem jsIncludes_of_jsEndsWith (s t : String) (h : jsEndsWith s t = true) :
    jsIncludes s t = true := by
  rw [jsEndsWith, List.isSuffixOf_iff_suffix] at h
  exact (infixOfList_iff_occurs _ _).mpr h.isInfix

theorem jsIncludes_of_jsStartsWith (s t : String) (h : jsStartsWith s t = true) :
    jsIncludes s t = true := by
  rw [jsStartsWith, List.isPrefixOf_iff_prefix] at h
  exact (infixOfList_iff_occurs _ _).mpr h.isInfix

theorem replaceFirstList_of_no_occurrence (pat repl : List Char) :
    ∀ s : List Char, infixOfList pat s = false → replaceFirstList pat repl s = s := by
  intro s
  induction s with
  | nil =>
    intro h
    simp [infixOfList, List.isEmpty_iff] at h
    cases pat with
    | nil => simp at h
    | cons a b => rfl
  | cons c t ih =>
    intro h
    simp only [infixOfList, Bool.or_eq_false_iff] at h
    simp [replaceFirstList, h.1, ih h.2]

theorem jsReplaceFirst_of_not_includes (s pat repl : String)
    (h : jsIncludes s pat = false) : jsReplaceFirst s pat repl = s := by
  rw [jsReplaceFirst, replaceFirstList_of_no_occurrence _ _ _ h]
  rfl

theorem replaceFirstList_of_isPrefixOf (pat repl : List Char) (s : List Char)
    (h : pat.isPrefixOf s = true) :
    replaceFirstList pat repl s = repl ++ s.drop pat.length := by
  cases s with
  | nil =>
    have hp : pat = [] := by
      cases pat with
      | nil => rfl
      | cons a b => simp [List.isPrefixOf] at h
    subst hp; simp [replaceFirstList]
  | cons c t => simp [replaceFirstList, h]

theorem findIdx?_first {α : Type} (p : α → Bool) :
    ∀ (l : List α) (k : Nat) (x : α), l[k]? = some x → p x = true →
      (∀ j y, j < k → l[j]? = some y → p y = false) →
      l.findIdx? p = some k := by
  intro l
  induction l with
  | nil => intro k x hx; simp at hx
  | cons a t ih =>
    intro k x hx hpx hlt
    cases k with
    | zero =>
      rw [List.getElem?_cons_zero] at hx
      cases hx
      simp [List.findIdx?_cons, hpx]
    | succ j =>
      have ha : p a = false := hlt 0 a (Nat.succ_pos j) List.getElem?_cons_zero
      rw [List.getElem?_cons_succ] at hx
      rw [List.findIdx?_cons, ha]
      simp only [cond_false, List.findIdx?_succ]
      rw [ih j x hx hpx (fun i y hij hy =>
        hlt (i + 1) y (Nat.succ_lt_succ hij) (by rw [List.getElem?_cons_succ]; exact hy))]
      rfl

theorem find?_first_block {α : Type} (p : α → Bool) (l1 l2 : List α) (t : α)
    (h1 : ∀ y ∈ l1, p y = false) (ht : p t = true) :
    (l1 ++ t :: l2).find? p = some t := by
  rw [List.find?_append]
  have hn : l1.find? p = none := List.find?_eq_none.mpr (fun x hx => by simp [h1 x hx])
  rw [hn, List.find?_cons, ht]
  rfl

theorem switchByFileRuleRun_isOk (e : Env) (project : Project) :
    ∃ b, Common.switchByFileRuleRun e project = JsOutcome.ok b := by
  rw [Common.switchByFileRuleRun]
  by_cases hf : project.rule == "file"
  · simp [hf]
  · simp only [hf, Bool.false_eq_true, if_false]
    by_cases hg : project.rule == "git"
    · simp only [hg, if_true]
      rw [Common.handleGitFileRun]
      by_cases hfp : jsFalsyStr (Common.getNextFilePath e.currentFileName project.path)
      · simp [hfp]
      · simp only [hfp, Bool.false_eq_true, if_false]
        cases (splitLines e.gitLsOutput).find?
            (fun file => jsIncludes file ((Common.getNextFilePath e.currentFileName project.path).getD "")) with
        | none => exact ⟨false, rfl⟩
        | some targetFile => exact ⟨_, rfl⟩
    · simp [hg]

theorem updateFirstNamed_none (nm fp : String) :
    ∀ ps : List ProjectCfg, (∀ q ∈ ps, q.name ≠ nm) →
      updateFirstNamed nm fp ps = none := by
  intro ps
  induction ps with
  | nil => intro _; rfl
  | cons p t ih =>
    intro h
    have hp : (p.name == nm) = false := beq_eq_false_iff_ne.mpr (h p (by simp))
    rw [updateFirstNamed, hp]
    simp only [Bool.false_eq_true, if_false]
    rw [ih (fun q hq => h q (by simp [hq]))]

theorem updateFirstNamed_found_cons (nm fp : String) (p : ProjectCfg) (r0 : Rule)
    (rs : List Rule) (ps2 : List ProjectCfg) (hname : p.name = nm)
    (hrules : p.rules = r0 :: rs) :
    ∀ ps1 : List ProjectCfg, (∀ q ∈ ps1, q.name ≠ nm) →
      updateFirstNamed nm fp (ps1 ++ p :: ps2) =
        some (JsOutcome.ok
          (ps1 ++ { name := p.name, rules := pushIfAbsent r0 fp :: rs } :: ps2)) := by
  intro ps1
  induction ps1 with
  | nil =>
    intro _
    have hp : (p.name == nm) = true := beq_iff_eq.mpr hname
    simp only [List.nil_append]
    rw [updateFirstNamed, hp]
    simp [hrules]
  | cons q t ih =>
    intro h
    have hq : (q.name == nm) = false := beq_eq_false_iff_ne.mpr (h q (by simp))
    simp only [List.cons_append]
    rw [updateFirstNamed, hq]
    simp only [Bool.false_eq_true, if_false]
    rw [ih (fun x hx => h x (by simp [hx]))]

theorem updateFirstNamed_found_nil (nm fp : String) (p : ProjectCfg)
    (ps2 : List ProjectCfg) (hname : p.name = nm) (hrules : p.rules = []) :
    ∀ ps1 : List ProjectCfg, (∀ q ∈ ps1, q.name ≠ nm) →
      updateFirstNamed nm fp (ps1 ++ p :: ps2) =
        some (JsOutcome.thrown "TypeError: cannot read path of undefined") := by
  intro ps1
  induction ps1 with
  | nil =>
    intro _
    have hp : (p.name == nm) = true := beq_iff_eq.mpr hname
    simp only [List.nil_append]
    rw [updateFirstNamed, hp]
    simp [hrules]
  | cons q t ih =>
    intro h
    have hq : (q.name == nm) = false := beq_eq_false_iff_ne.mpr (h q (by simp))
    simp only [List.cons_append]
    rw [updateFirstNamed, hq]
    simp only [Bool.false_eq_true, if_false]
    rw [ih (fun x hx => h x (by simp [hx]))]

example : jsIncludes "/abs/foo.ts" "foo.ts" = true := by decide
example : Common.getNextFilePath "zz" ["a"] = some "a" := by decide
example : Switcher.getNextFilePath "zz" ["a"] = none := by decide
example : Switcher.getNextFilePath "/a/foo.ts" ["/a/foo.ts", "/a/fooTest.ts"] = some "/a/fooTest.ts" := by decide
example : Common.switchFileOutcome "x" [] = JsOutcome.ok false := by decide
example : Util.getCommonPart "TestxTest" ⟨none, [], "file", some "Test", none⟩ = "xTest" := by decide
example : Util.getCommonPart "foo_bar_baz" ⟨none, [], "file", some "_baz", some "foo_"⟩ = "bar" := by decide

/-- C1, counterexample: with path list `["a"]` and current identity `"zz"`
(no entry contains the identity, the identity contains no entry) the
switcher.ts cyclic selector returns `undefined` — an absent value — not the
first entry, contradicting the claim as stated. -/
theorem fallback_to_first_counterexample :
    jsIncludes "zz" "a" = false ∧ jsIncludes "a" "zz" = false ∧
    Switcher.getNextFilePath "zz" ["a"] = none := by decide

/-- C1 (amended): for a non-empty path list and a current identity in no
bidirectional containment relation with any entry, the common.ts selector
falls back to the first entry, while the switcher.ts selector returns an
absent value (`undefined`). -/
theorem fallback_to_first_amended (s : String) (P : List String) (h : P ≠ [])
    (hno : ∀ p ∈ P, jsIncludes s p = false ∧ jsIncludes p s = false) :
    Common.getNextFilePath s P = some (P.head h) ∧ Switcher.getNextFilePath s P = none := by
  have hfind : P.findIdx? (fun path => jsIncludes s path || jsIncludes path s) = none := by
    rw [List.findIdx?_eq_none_iff]
    intro x hx
    rcases hno x hx with ⟨h1, h2⟩
    simp [h1, h2]
  constructor
  · cases P with
    | nil => exact absurd rfl h
    | cons a t =>
      rw [Common.getNextFilePath]
      simp only [jsFindIndex, hfind]
      have hne : ¬((-1 : Int) = ((a :: t).length : Int) - 1) := by
        simp only [List.length_cons]
        omega
      simp [hne, jsArrayGet]
  · rw [Switcher.getNextFilePath, hfind]

/-- C1, witness for the amended theorem at the concrete inputs
`P = ["a", "b"]`, identity `"zz"`. -/
theorem fallback_to_first_witness :
    Common.getNextFilePath "zz" ["a", "b"] = some "a" ∧
    Switcher.getNextFilePath "zz" ["a", "b"] = none := by
  have := fallback_to_first_amended "zz" ["a", "b"] (by decide) (by decide)
  simpa using this

/-- C8, counterexample: with an empty path list, the switcher.ts `file`
handler throws the very same generic `SwitcherError("No next file path
found")` that an ordinary no-match produces, and the common.ts handler
silently returns `false`; no distinct `InvalidRule` error exists anywhere in
the code. -/
theorem empty_path_list_counterexample :
    Switcher.switchFileOutcome "/a/b.ts" [] = JsOutcome.thrown "No next file path found" ∧
    Switcher.switchFileOutcome "/a/b.ts" ["zzz"] = JsOutcome.thrown "No next file path found" ∧
    Common.switchFileOutcome "/a/b.ts" [] = JsOutcome.ok false := by decide

/-- C8 (amended): applied to an empty path list, the switcher.ts pipeline
throws the generic `SwitcherError("No next file path found")` (the same
failure as when no entry matches), and the common.ts pipeline returns
`false` without any error. -/
theorem empty_path_list_amended (current : String) :
    Switcher.switchFileOutcome current [] = JsOutcome.thrown "No next file path found" ∧
    Common.switchFileOutcome current [] = JsOutcome.ok false := by
  constructor
  · rfl
  · rfl

/-- C4, counterexample: for the stem `"TestxTest"` with postfix `"Test"`,
the code removes the FIRST occurrence of the postfix (yielding `"xTest"`),
not the occurrence at the end of the stem as the claim states (which would
yield `"Testx"`). -/
theorem common_part_counterexample :
    Util.getCommonPart "TestxTest" ⟨none, [], "file", some "Test", none⟩ = "xTest" ∧
    claimCommonPart "TestxTest" ⟨none, [], "file", some "Test", none⟩ = "Testx" ∧
    ("xTest" : String) ≠ "Testx" := by decide

/-- C4 (amended): `getCommonPart` (identical in util.ts and common.ts)
removes the first occurrence of the postfix anywhere in the stem when the
stem ends with the postfix, then removes the prefix from the start of the
intermediate result when it starts with the prefix; a stem containing
neither affix is returned unchanged. -/
theorem common_part_amended (fileName : String) (project : Project) :
    Util.getCommonPart fileName project = Common.getCommonPart fileName project ∧
    ((∀ pf, project.post = some pf → jsIncludes fileName pf = false) →
     (∀ pr, project.pre = some pr → jsIncludes fileName pr = false) →
     Util.getCommonPart fileName project = fileName) ∧
    (∀ pr, project.post = none → project.pre = some pr → strTruthy pr = true →
     jsStartsWith fileName pr = true →
     Util.getCommonPart fileName project = String.mk (fileName.toList.drop pr.toList.length)) := by
  refine ⟨rfl, ?_, ?_⟩
  · intro hpost hpre
    have h1 : stripPostJS fileName project.post = fileName := by
      cases hp : project.post with
      | none => rfl
      | some pf =>
        have hinc := hpost pf hp
        have hend : jsEndsWith fileName pf = false := by
          cases he : jsEndsWith fileName pf with
          | false => rfl
          | true => rw [jsIncludes_of_jsEndsWith fileName pf he] at hinc; cases hinc
        simp [stripPostJS, hend]
    have h2 : stripPreJS fileName project.pre = fileName := by
      cases hp : project.pre with
      | none => rfl
      | some pr =>
        have hinc := hpre pr hp
        have hst : jsStartsWith fileName pr = false := by
          cases hs : jsStartsWith fileName pr with
          | false => rfl
          | true => rw [jsIncludes_of_jsStartsWith fileName pr hs] at hinc; cases hinc
        simp [stripPreJS, hst]
    rw [Util.getCommonPart]
    simp only [h1, h2]
  · intro pr hpost hpre htru hst
    rw [Util.getCommonPart]
    simp only [hpost, hpre, stripPostJS, stripPreJS, htru, hst, Bool.and_self, if_true]
    rw [jsReplaceFirst]
    rw [replaceFirstList_of_isPrefixOf _ _ _ hst]
    simp

/-- C4, witness for the amended theorem: a stem containing neither affix is
returned unchanged. -/
theorem common_part_witness :
    Util.getCommonPart "plain" ⟨none, [], "file", some "Test", some "xy"⟩ = "plain" :=
  (common_part_amended "plain" ⟨none, [], "file", some "Test", some "xy"⟩).2.1
    (by decide) (by decide)

/-- C2, counterexample: the current file `"/abs/foo.ts"` CONTAINS the
resolved entry `"foo.ts"`, so under the claimed bidirectional containment
the single declared rule must match; but both `findProject` variants test
only `path.includes(currentFile)` (entry contains current file) and find
nothing. -/
theorem find_project_counterexample :
    jsIncludes "/abs/foo.ts" "foo.ts" = true ∧
    Switcher.findProject [⟨some "other", ["foo.ts"], "file", none, none⟩]
      "/abs/foo.ts" "file" (some "proj") = none ∧
    Common.findProject [⟨some "other", ["foo.ts"], "file", none, none⟩]
      "/abs/foo.ts" "file" (some "proj") = none := by decide

/-- C2 (amended): for kind `"file"`, the common.ts `findProject` prefers —
over the whole list — the first rule whose declared name equals the supplied
name and whose kind matches, and only when no such rule exists falls back to
the first rule with some resolved entry that contains the current file as a
substring (one-directional containment); the switcher.ts variant tests the
two conditions in a single declaration-order scan, so the first project
satisfying either wins. -/
theorem find_project_preference_amended (ps : List Project) (cf : String) (nm : Option String) :
    (∀ c, ps.find? (fun q => q.rule == "file" && q.name == nm) = some c →
        Common.findProject ps cf "file" nm = some c) ∧
    (ps.find? (fun q => q.rule == "file" && q.name == nm) = none →
        Common.findProject ps cf "file" nm =
          ps.find? (fun q => q.path.any (fun path => jsIncludes path cf))) ∧
    Switcher.findProject ps cf "file" nm =
      ps.find? (fun q =>
        (q.rule == "file" && q.name == nm) || q.path.any (fun path => jsIncludes path cf)) := by
  have hcommon : Common.findProject ps cf "file" nm =
      Option.or (ps.find? (fun q => q.rule == "file" && q.name == nm))
        (ps.find? (fun q => q.path.any (fun path => jsIncludes path cf))) := rfl
  refine ⟨?_, ?_, rfl⟩
  · intro c hc
    rw [hcommon, hc, Option.or_some]
  · intro hn
    rw [hcommon, hn]
    rfl

/-- C2, witness for the amended theorem: a name-and-kind match is preferred
and returned. -/
theorem find_project_preference_witness :
    Common.findProject [⟨some "p", ["x"], "file", none, none⟩] "cur" "file" (some "p") =
      some ⟨some "p", ["x"], "file", none, none⟩ :=
  (find_project_preference_amended [⟨some "p", ["x"], "file", none, none⟩] "cur" (some "p")).1
    ⟨some "p", ["x"], "file", none, none⟩ (by decide)

/-- C9: when a project with the given name exists (first occurrence at an
arbitrary position), `addRule` only rewrites the path list of that project's
first rule — appending the current file path when absent, leaving it
untouched when present — while every other project, the order of the project
sequence, the project's name, its remaining rules and the first rule's other
fields are written back identical. -/
theorem add_rule_frame (cfg : SwitchRule) (nm fp : String) (ps1 ps2 : List ProjectCfg)
    (p : ProjectCfg) (r0 : Rule) (rs : List Rule)
    (hsplit : cfg.projects = ps1 ++ p :: ps2)
    (hfirst : ∀ q ∈ ps1, q.name ≠ nm)
    (hname : p.name = nm) (hrules : p.rules = r0 :: rs) :
    Switcher.addRuleCompute cfg nm fp =
      JsOutcome.ok ⟨ps1 ++
        { name := p.name,
          rules := { rule := r0.rule,
                     path := if r0.path.contains fp then r0.path else r0.path ++ [fp],
                     post := r0.post, pre := r0.pre } :: rs } :: ps2⟩ := by
  rw [Switcher.addRuleCompute, hsplit,
    updateFirstNamed_found_cons nm fp p r0 rs ps2 hname hrules ps1 hfirst]
  rfl

/-- C9, witness: appending `"/a/b.ts"` to the first rule of the second
project leaves the first project and all other fields unchanged. -/
theorem add_rule_frame_witness :
    Switcher.addRuleCompute
      ⟨[⟨"other", [⟨"git", ["%.ts"], some "Test", none⟩]⟩,
        ⟨"proj", [⟨"file", ["/a/a.ts"], none, none⟩]⟩]⟩ "proj" "/a/b.ts" =
      JsOutcome.ok
        ⟨[⟨"other", [⟨"git", ["%.ts"], some "Test", none⟩]⟩,
          ⟨"proj", [⟨"file", ["/a/a.ts", "/a/b.ts"], none, none⟩]⟩]⟩ := by
  rw [add_rule_frame
    ⟨[⟨"other", [⟨"git", ["%.ts"], some "Test", none⟩]⟩,
      ⟨"proj", [⟨"file", ["/a/a.ts"], none, none⟩]⟩]⟩ "proj" "/a/b.ts"
    [⟨"other", [⟨"git", ["%.ts"], some "Test", none⟩]⟩] []
    ⟨"proj", [⟨"file", ["/a/a.ts"], none, none⟩]⟩
    ⟨"file", ["/a/a.ts"], none, none⟩ [] rfl (by decide) rfl rfl]
  decide

/-- C10: calling `addRule` with the name of an existing project whose rule
list is empty throws (the access `condition.rules[0].path` fails) before
`Deno.writeTextFile` runs, so the stored configuration is unchanged. -/
theorem add_rule_empty_rules_throws (cfg : SwitchRule) (nm fp : String)
    (ps1 ps2 : List ProjectCfg) (p : ProjectCfg)
    (hsplit : cfg.projects = ps1 ++ p :: ps2)
    (hfirst : ∀ q ∈ ps1, q.name ≠ nm)
    (hname : p.name = nm) (hrules : p.rules = []) :
    Switcher.addRuleCompute cfg nm fp =
      JsOutcome.thrown "TypeError: cannot read path of undefined" ∧
    Switcher.addRuleFinalStore cfg nm fp = cfg := by
  have h1 : Switcher.addRuleCompute cfg nm fp =
      JsOutcome.thrown "TypeError: cannot read path of undefined" := by
    rw [Switcher.addRuleCompute, hsplit,
      updateFirstNamed_found_nil nm fp p ps2 hname hrules ps1 hfirst]
  refine ⟨h1, ?_⟩
  rw [Switcher.addRuleFinalStore, h1]

/-- C10, witness at a concrete configuration holding a project with an
empty rule list. -/
theorem add_rule_empty_rules_witness :
    Switcher.addRuleCompute ⟨[⟨"proj", []⟩]⟩ "proj" "/a/b.ts" =
      JsOutcome.thrown "TypeError: cannot read path of undefined" ∧
    Switcher.addRuleFinalStore ⟨[⟨"proj", []⟩]⟩ "proj" "/a/b.ts" = ⟨[⟨"proj", []⟩]⟩ :=
  add_rule_empty_rules_throws ⟨[⟨"proj", []⟩]⟩ "proj" "/a/b.ts" [] [] ⟨"proj", []⟩
    rfl (by decide) rfl rfl

theorem findProject_file_name_hit (c0 : Project) (rest : List Project) (cf : String)
    (nm : Option String) (hrule : c0.rule = "file") (hname : c0.name = nm) :
    Common.findProject (c0 :: rest) cf "file" nm = some c0 := by
  have hp : (c0.rule == "file" && c0.name == nm) = true := by simp [hrule, hname]
  have h1 : (c0 :: rest).find? (fun q => q.rule == "file" && q.name == nm) = some c0 := by
    simp [List.find?_cons, hp]
  calc Common.findProject (c0 :: rest) cf "file" nm
      = Option.or ((c0 :: rest).find? (fun q => q.rule == "file" && q.name == nm))
          ((c0 :: rest).find? (fun q => q.path.any (fun path => jsIncludes path cf))) := rfl
    _ = some c0 := by rw [h1, Option.or_some]

/-- C6: on a configuration with no project of the given name, `addRule`
creates a fresh project holding exactly one `"file"` rule whose path list is
exactly the current file path, inserts it at the front of the project
sequence, and a subsequent kind=`"file"` lookup by that project name resolves
to a rule whose path list is exactly that one-element list (the file path
containing neither `%` nor `~`, resolution leaves it untouched). -/
theorem add_rule_round_trip (cfg : SwitchRule) (nm fp fileName home cfn : String)
    (hnew : ∀ p ∈ cfg.projects, p.name ≠ nm)
    (hpct : jsIncludes fp "%" = false) (htld : jsIncludes fp "~" = false) :
    ∃ cfg1, Switcher.addRuleCompute cfg nm fp = JsOutcome.ok cfg1 ∧
      cfg1.projects =
        { name := nm, rules := [{ rule := "file", path := [fp], post := none, pre := none }] }
          :: cfg.projects ∧
      ∃ c, Common.getSwitcherRuleCore cfg1 fileName home cfn "file" (some nm) = some c ∧
        c.path = [fp] := by
  have hres : realPathResolve fileName home nm ⟨"file", [fp], none, none⟩ fp = fp := by
    rw [realPathResolve]
    simp only [hpct, Bool.false_eq_true, if_false]
    exact jsReplaceFirst_of_not_includes fp "~" home htld
  refine ⟨⟨{ name := nm, rules := [{ rule := "file", path := [fp], post := none, pre := none }] }
      :: cfg.projects⟩, ?_, rfl, ?_⟩
  · rw [Switcher.addRuleCompute, updateFirstNamed_none nm fp cfg.projects hnew]
    rfl
  · refine ⟨⟨some nm, [fp], "file", none, none⟩, ?_, rfl⟩
    rw [Common.getSwitcherRuleCore, Common.resolveProjects]
    simp only [List.flatMap_cons, List.map_cons, List.map_nil, hres, List.singleton_append]
    exact findProject_file_name_hit _ _ _ _ rfl rfl

/-- C6, witness at a concrete configuration, project name and file path. -/
theorem add_rule_round_trip_witness :
    ∃ cfg1, Switcher.addRuleCompute ⟨[⟨"other", [⟨"file", ["/x.ts"], none, none⟩]⟩]⟩
        "proj" "/a/b.ts" = JsOutcome.ok cfg1 ∧
      cfg1.projects =
        { name := "proj",
          rules := [{ rule := "file", path := ["/a/b.ts"], post := none, pre := none }] }
          :: [⟨"other", [⟨"file", ["/x.ts"], none, none⟩]⟩] ∧
      ∃ c, Common.getSwitcherRuleCore cfg1 "main" "/home/u" "main.ts" "file" (some "proj") =
          some c ∧ c.path = ["/a/b.ts"] :=
  add_rule_round_trip ⟨[⟨"other", [⟨"file", ["/x.ts"], none, none⟩]⟩]⟩ "proj" "/a/b.ts"
    "main" "/home/u" "main.ts" (by decide) (by decide) (by decide)

/-- C7, counterexample: for identical inputs (template name `"b.ts"`,
tracked listing `"src/b.ts"`), the path `handleGitFile` opens is whatever
`Deno.realPathSync` resolves the tracked relative path to — two different
filesystem resolutions open two different paths — so it is not determined by
any fixed `repositoryRoot + "/" + trackedRelativePath` composition; the
function never consults a repository root at all. -/
theorem handle_git_file_counterexample :
    Switcher.handleGitFile (some "b.ts") "src/b.ts" (fun s => String.append "/link/" s) =
      JsOutcome.ok (true, some "/link/src/b.ts") ∧
    Switcher.handleGitFile (some "b.ts") "src/b.ts" (fun _ => "/canonical/real.ts") =
      JsOutcome.ok (true, some "/canonical/real.ts") ∧
    ("/link/src/b.ts" : String) ≠ "/canonical/real.ts" := by decide

/-- C7 (amended): `handleGitFile` selects the first tracked relative path,
in the listing order of `git ls-files`, containing the template name as a
substring and opens `Deno.realPathSync` of it (not a root-composed path);
when no tracked line contains the name it throws
`SwitcherError("No matching file found in git repository")`. -/
theorem handle_git_file_amended (nm out : String) (rp : String → String)
    (l1 l2 : List String) (t : String) :
    (strTruthy nm = true → splitLines out = l1 ++ t :: l2 →
      (∀ f ∈ l1, jsIncludes f nm = false) → jsIncludes t nm = true →
      Switcher.handleGitFile (some nm) out rp = JsOutcome.ok (openFile (some (rp t)))) ∧
    (strTruthy nm = true → (∀ f ∈ splitLines out, jsIncludes f nm = false) →
      Switcher.handleGitFile (some nm) out rp =
        JsOutcome.thrown "No matching file found in git repository") := by
  constructor
  · intro htru hsplit hl1 ht
    have hfalsy : jsFalsyStr (some nm) = false := by
      rw [strTruthy] at htru
      simpa using htru
    have hfind : (splitLines out).find? (fun file => jsIncludes file ((some nm).getD "")) =
        some t := by
      rw [hsplit]
      exact find?_first_block _ l1 l2 t (fun y hy => by simpa using hl1 y hy) (by simpa using ht)
    rw [Switcher.handleGitFile, hfalsy]
    simp only [Bool.false_eq_true, if_false, hfind]
  · intro htru hnone
    have hfalsy : jsFalsyStr (some nm) = false := by
      rw [strTruthy] at htru
      simpa using htru
    have hfind : (splitLines out).find? (fun file => jsIncludes file ((some nm).getD "")) =
        none :=
      List.find?_eq_none.mpr (fun x hx => by simp [hnone x hx])
    rw [Switcher.handleGitFile, hfalsy]
    simp only [Bool.false_eq_true, if_false, hfind]

/-- C7, witness for the amended theorem: the second listed line is the first
containing the name, and its realpath resolution is opened. -/
theorem handle_git_file_witness :
    Switcher.handleGitFile (some "b.ts") "a.txt\nsrc/b.ts"
      (fun s => String.append "/repo/" s) = JsOutcome.ok (true, some "/repo/src/b.ts") := by
  have h := (handle_git_file_amended "b.ts" "a.txt\nsrc/b.ts"
    (fun s => String.append "/repo/" s) ["a.txt"] [] "src/b.ts").1
    (by decide) (by decide) (by decide) (by decide)
  rw [h]
  decide

/-- C5, counterexample: an empty configuration file makes `getSwitchers`
(common.ts) call `Deno.exit(1)`, which the `try`/`catch` of `switchByRule`
cannot intercept — the entry point terminates the host process instead of
returning `false`. -/
theorem switch_by_rule_counterexample :
    MainV2.switchByRuleRun envEmptyCfg none none = JsOutcome.exited 1 ∧
    (JsOutcome.exited 1 : JsOutcome Bool) ≠ JsOutcome.ok false := by
  exact ⟨rfl, by decide⟩

/-- C5 (amended): `switchByRule` never lets a thrown error escape to its
caller — it returns `false` when the configuration variable is unset, when
the configuration is malformed, and when no rule matches — and it returns
`true` whenever a rule matched, even if the subsequent file switch reported
failure; but an empty configuration file makes the common.ts `getSwitchers`
terminate the process via `Deno.exit(1)` (the switcher.ts variant throws a
`SwitcherError` instead). -/
theorem switch_by_rule_error_policy_amended (e : Env) (ra pa : Option String) :
    (∀ m, MainV2.switchByRuleRun e ra pa ≠ JsOutcome.thrown m) ∧
    (e.switchRuleVar = none → MainV2.switchByRuleRun e ra pa = JsOutcome.ok false) ∧
    (e.parsed = none → e.fileContent ≠ some [] →
      MainV2.switchByRuleRun e ra pa = JsOutcome.ok false) ∧
    (Common.getSwitcherRuleRun e (ra.getD "file") (some (pa.getD "")) = JsOutcome.ok none →
      MainV2.switchByRuleRun e ra pa = JsOutcome.ok false) ∧
    (∀ sw, Common.getSwitcherRuleRun e (ra.getD "file") (some (pa.getD "")) =
        JsOutcome.ok (some sw) →
      MainV2.switchByRuleRun e ra pa = JsOutcome.ok true) ∧
    (e.switchRuleVar ≠ none → e.fileContent = some [] →
      Common.getSwitchersRun e = JsOutcome.exited 1 ∧
      Switcher.getSwitchersRun e = JsOutcome.thrown "No switch rule found") := by
  refine ⟨?_, ?_, ?_, ?_, ?_, ?_⟩
  · intro m
    cases hr : Common.getSwitcherRuleRun e (ra.getD "file") (some (pa.getD "")) with
    | thrown m2 => simp [MainV2.switchByRuleRun, hr]
    | exited n => simp [MainV2.switchByRuleRun, hr]
    | ok o =>
      cases o with
      | none => simp [MainV2.switchByRuleRun, hr]
      | some sw =>
        obtain ⟨b, hb⟩ := switchByFileRuleRun_isOk e sw
        simp [MainV2.switchByRuleRun, hr, hb]
  · intro hv
    have hs : Common.getSwitchersRun e =
        JsOutcome.thrown "ensure failed: g:switch_rule is not a string" := by
      rw [Common.getSwitchersRun, hv]
    have hr : Common.getSwitcherRuleRun e (ra.getD "file") (some (pa.getD "")) =
        JsOutcome.thrown "ensure failed: g:switch_rule is not a string" := by
      rw [Common.getSwitcherRuleRun, hs]
    simp [MainV2.switchByRuleRun, hr]
  · intro hp hf
    have hs : ∃ m, Common.getSwitchersRun e = JsOutcome.thrown m := by
      cases hv : e.switchRuleVar with
      | none =>
        exact ⟨"ensure failed: g:switch_rule is not a string",
          by simp [Common.getSwitchersRun, hv]⟩
      | some v =>
        cases hc : e.fileContent with
        | none => exact ⟨"readfile failed", by simp [Common.getSwitchersRun, hv, hc]⟩
        | some content =>
          have hne : content ≠ [] := by
            intro hcon
            exact hf (by rw [hc, hcon])
          have hlen : (content.length == 0) = false := by
            rw [beq_eq_false_iff_ne]
            simpa [List.length_eq_zero] using hne
          exact ⟨"JSON.parse or schema validation failed",
            by simp [Common.getSwitchersRun, hv, hc, hlen, hp]⟩
    obtain ⟨m, hm⟩ := hs
    have hr : Common.getSwitcherRuleRun e (ra.getD "file") (some (pa.getD "")) =
        JsOutcome.thrown m := by
      rw [Common.getSwitcherRuleRun, hm]
    simp [MainV2.switchByRuleRun, hr]
  · intro hr
    simp [MainV2.switchByRuleRun, hr]
  · intro sw hr
    obtain ⟨b, hb⟩ := switchByFileRuleRun_isOk e sw
    simp [MainV2.switchByRuleRun, hr, hb]
  · intro hv hc
    cases hve : e.switchRuleVar with
    | none => exact absurd hve hv
    | some v =>
      constructor
      · rw [Common.getSwitchersRun, hve, hc]
        rfl
      · rw [Switcher.getSwitchersRun, hve, hc]
        rfl

/-- C5, witness for the amended theorem: with `g:switch_rule` unset the
entry point returns `false`. -/
theorem switch_by_rule_witness :
    MainV2.switchByRuleRun envMissingVar none none = JsOutcome.ok false :=
  (switch_by_rule_error_policy_amended envMissingVar none none).2.1 rfl

theorem getNextFilePath_step (P : List String)
    (hsep : ∀ (i j : Nat) (x y : String), P[i]? = some x → P[j]? = some y →
      (jsIncludes x y || jsIncludes y x) = true → i = j)
    (k : Nat) (s : String) (hk : P[k]? = some s) :
    Switcher.getNextFilePath s P = P[(k + 1) % P.length]? := by
  have hfind : P.findIdx? (fun path => jsIncludes s path || jsIncludes path s) = some k := by
    apply findIdx?_first _ P k s hk
    · simp [jsIncludes_self]
    · intro j y hj hy
      cases hpy : (jsIncludes s y || jsIncludes y s) with
      | false => rfl
      | true =>
        have hkj := hsep k j s y hk hy hpy
        omega
  rw [Switcher.getNextFilePath, hfind]

theorem nextChain_mod (P : List String)
    (hsep : ∀ (i j : Nat) (x y : String), P[i]? = some x → P[j]? = some y →
      (jsIncludes x y || jsIncludes y x) = true → i = j) :
    ∀ (n k : Nat) (s : String), P[k]? = some s →
      Switcher.nextChain P n s = P[(k + n) % P.length]? := by
  intro n
  induction n with
  | zero =>
    intro k s hk
    have hklen : k < P.length := List.getElem?_eq_some.mp hk |>.1
    rw [Switcher.nextChain, Nat.add_zero, Nat.mod_eq_of_lt hklen, hk]
  | succ n ih =>
    intro k s hk
    have hlen : 0 < P.length := by
      have hklen : k < P.length := List.getElem?_eq_some.mp hk |>.1
      omega
    have hstep := getNextFilePath_step P hsep k s hk
    have hnext : ((k + 1) % P.length) < P.length := Nat.mod_lt _ hlen
    obtain ⟨t, ht⟩ : ∃ t, P[(k + 1) % P.length]? = some t :=
      ⟨_, List.getElem?_eq_getElem hnext⟩
    rw [Switcher.nextChain, hstep, ht]
    show Switcher.nextChain P n t = P[(k + (n + 1)) % P.length]?
    rw [ih ((k + 1) % P.length) t ht, Nat.mod_add_mod]
    have harith : k + 1 + n = k + (n + 1) := by omega
    rw [harith]

/-- C3, counterexample: for `P = ["a", "ab", "b"]` (length 3) and starting
identity `P[0] = "a"`, the third iterated application of the switcher.ts
selector yields `"ab"`, not `P[0]` — entries related by substring
containment derail the cycle because `findIndex` locates the first related
entry, not the entry itself. -/
theorem cycle_closure_counterexample :
    Switcher.nextChain ["a", "ab", "b"] 3 "a" = some "ab" ∧ ("ab" : String) ≠ "a" := by
  decide

/-- C3 (amended): cycle closure holds under the additional hypothesis that
no two entries at distinct positions are related by substring containment
(so every entry resolves to its own index): starting from the head and
applying the selector `length P` times, feeding each result back, returns
the head. -/
theorem cycle_closure_amended (P : List String) (h : P ≠ [])
    (hsep : ∀ (i j : Nat) (x y : String), P[i]? = some x → P[j]? = some y →
      (jsIncludes x y || jsIncludes y x) = true → i = j) :
    Switcher.nextChain P P.length (P.head h) = some (P.head h) := by
  have h0 : P[0]? = some (P.head h) := by
    cases P with
    | nil => exact absurd rfl h
    | cons a t => simp
  rw [nextChain_mod P hsep P.length 0 (P.head h) h0, Nat.zero_add, Nat.mod_self]
  exact h0

/-- C3, witness for the amended theorem on the containment-free list
`["a", "b"]`: two applications return to the head. -/
theorem cycle_closure_witness : Switcher.nextChain ["a", "b"] 2 "a" = some "a" := by
  have hsep : ∀ (i j : Nat) (x y : String), (["a", "b"] : List String)[i]? = some x →
      (["a", "b"] : List String)[j]? = some y →
      (jsIncludes x y || jsIncludes y x) = true → i = j := by
    intro i j x y hx hy hcon
    have hi : i < 2 := by
      by_contra hge
      rw [List.getElem?_eq_none (by simpa using Nat.le_of_not_lt hge)] at hx
      cases hx
    have hj : j < 2 := by
      by_contra hge
      rw [List.getElem?_eq_none (by simpa using Nat.le_of_not_lt hge)] at hy
      cases hy
    interval_cases i <;> interval_cases j
    · rfl
    · simp only [List.getElem?_cons_zero, List.getElem?_cons_succ] at hx hy
      injection hx with hx1
      injection hy with hy1
      subst hx1; subst hy1
      exact absurd hcon (by decide)
    · simp only [List.getElem?_cons_zero, List.getElem?_cons_succ] at hx hy
      injection hx with hx1
      injection hy with hy1
      subst hx1; subst hy1
      exact absurd hcon (by decide)
    · rfl
  simpa using cycle_closure_amended ["a", "b"] (by decide) hsep
